import Mathlib

/-!
Verification of the Google Maps ETL scraper (`src/main.py`, `src/utils/extract.py`,
`src/utils/transform.py`, `src/utils/load.py`) against its natural-language design
specification.

Strings from the Python code are embedded as `List Char`.  Python `float` values
arising from parsing decimal literals are embedded exactly as a pair
(integer numerator, power-of-ten exponent); `DecFloat.toRat` gives the numeric
value.  Fallible operations return `Option`/`Except`.  The browser/DOM
environment driven by Selenium is made explicit as data: the page URL,
share-link values, script contents, meta-tag attributes, and per-card outcomes.
-/

namespace EtlScrape

/-- Strings of the embedded program. -/
abbrev Str := List Char

/-- Numeric value of a digit character (Python `int(c)` for `'0'..'9'`). -/
def digitVal (c : Char) : ℕ := c.toNat - 48

/-- Value of a (most-significant-first) digit string, e.g. `natVal "407" = 407`. -/
def natVal (s : Str) : ℕ := s.foldl (fun a c => 10 * a + digitVal c) 0

/-- Exact model of a Python `float` obtained from a plain decimal literal:
the value is `num / 10 ^ exp`.  Decimal literals are represented exactly
(the pipeline only ever parses short decimal strings, where IEEE rounding
plays no role in any of the spec's claims). -/
structure DecFloat where
  num : ℤ
  exp : ℕ
deriving DecidableEq, Repr

/-- Numeric value of an embedded float. -/
def DecFloat.toRat (v : DecFloat) : ℚ := (v.num : ℚ) / (10 : ℚ) ^ v.exp

/-- Model of Python `float(s)` restricted to unsigned plain decimal literals
(`digits [. digits]` or `. digits`): the only shapes the pipeline's own string
data can produce.  Returns `none` where Python `float` raises `ValueError`. -/
def parseDecimal (s : Str) : Option DecFloat :=
  let ip := s.takeWhile Char.isDigit
  let r1 := s.dropWhile Char.isDigit
  match r1 with
  | [] => if ip.isEmpty then none else some ⟨(natVal ip : ℤ), 0⟩
  | '.' :: r2 =>
    let fp := r2.takeWhile Char.isDigit
    let r3 := r2.dropWhile Char.isDigit
    if r3.isEmpty then
      if ip.isEmpty && fp.isEmpty then none
      else some ⟨((natVal ip * 10 ^ fp.length + natVal fp : ℕ) : ℤ), fp.length⟩
    else none
  | _ => none

/-- Model of Python `float(s)` (see `parseDecimal`), handling the optional sign. -/
def pyFloat? (s : Str) : Option DecFloat :=
  match s with
  | [] => none
  | c :: r =>
    if c = '-' then (parseDecimal r).map (fun v => ⟨-v.num, v.exp⟩)
    else if c = '+' then parseDecimal r
    else parseDecimal (c :: r)

/-- Python `s.split(',')`: splits on every comma; `"".split(',') = ['']`. -/
def splitComma : Str → List Str
  | [] => [[]]
  | c :: r =>
    if c = ',' then [] :: splitComma r
    else
      match splitComma r with
      | [] => [[c]]
      | p :: ps => (c :: p) :: ps

/-- The sentinel `"No coordinates"` from `utils/extract.py`. -/
def no_coordinates : Str := "No coordinates".data

/-- The sentinel `"No rating"` from `utils/extract.py`. -/
def no_rating : Str := "No rating".data

/-- The sentinel `"No name"` from `utils/extract.py`. -/
def no_name : Str := "No name".data

/-- The sentinel `"No address"` from `utils/extract.py`. -/
def no_address : Str := "No address".data

/-- Outcome of `DataTransformer._split_coordinates` for one record:
the `latitude`/`longitude` cells (absent = Python `None`/NaN) and whether the
failure branch (`logger.warning`) ran. -/
structure CoordSplit where
  latitude : Option DecFloat
  longitude : Option DecFloat
  logged : Bool
deriving DecidableEq, Repr

/-- Embedding of the per-record body of `DataTransformer._split_coordinates`
(`utils/transform.py` lines 63–84).  Mirrors the Python control flow exactly:
the guard `if coord and coord != 'No coordinates'`, the tuple unpacking
`lat, lng = coord.split(',')` (raises unless exactly two parts), and the two
assignments `df.at[idx,'latitude'] = float(lat)` **then**
`df.at[idx,'longitude'] = float(lng)` — so if `float(lng)` raises after
`float(lat)` succeeded, the latitude cell keeps its value.  The exception is
caught and logged (`logged`), never re-raised. -/
def split_coordinates (coord : Str) : CoordSplit :=
  if coord = [] ∨ coord = no_coordinates then ⟨none, none, false⟩
  else
    match splitComma coord with
    | [a, b] =>
      match pyFloat? a with
      | none => ⟨none, none, true⟩
      | some la =>
        match pyFloat? b with
        | none => ⟨some la, none, true⟩
        | some lb => ⟨some la, some lb, false⟩
    | _ => ⟨none, none, true⟩

/-- Match of the regex `\d+(\.\d+)?` anchored at the start of `s`
(group 1 of `re.search(r'(\d+(\.\d+)?)', ...)` in
`DataTransformer._extract_numeric_rating`): returns the matched token.
`\d+` is greedy and, being followed by `\.`, maximal munch is exact. -/
def matchNumAt (s : Str) : Option Str :=
  let d := s.takeWhile Char.isDigit
  if d.isEmpty then none
  else
    match s.dropWhile Char.isDigit with
    | '.' :: r2 =>
      let f := r2.takeWhile Char.isDigit
      if f.isEmpty then some d else some (d ++ '.' :: f)
    | _ => some d

/-- `re.search` semantics for the pattern `\d+(\.\d+)?`: leftmost match wins. -/
def searchNum : Str → Option Str
  | [] => none
  | c :: rest =>
    match matchNumAt (c :: rest) with
    | some tok => some tok
    | none => searchNum rest

/-- Embedding of the per-record body of `DataTransformer._extract_numeric_rating`
(`utils/transform.py` lines 45–61): guard `if rating and rating != 'No rating'`,
search for the first `\d+(\.\d+)?` token, and `float(match.group(1))`. -/
def extract_numeric_rating (rating : Str) : Option DecFloat :=
  if rating = [] ∨ rating = no_rating then none
  else
    match searchNum rating with
    | none => none
    | some m => pyFloat? m

/-! ### Pipeline entry point (`src/main.py`) -/

/-- Python truthiness of an `Optional[bool]` (`None` is falsy). -/
def pyTruthy : Option Bool → Bool
  | none => false
  | some b => b

/-- Embedding of `run_pipeline` (`src/main.py` lines 71–95) at the level of its
control flow.  The booleans say whether the extract / transform / load phase
raises.  The `try` body runs the three phases in order; the `except` clause
returns `False`; the success path has **no** `return` statement, so the Python
function returns `None` there — modelled as `none`. -/
def run_pipeline (extractRaises transformRaises loadRaises : Bool) : Option Bool :=
  if extractRaises || transformRaises || loadRaises then some false else none

/-- Embedding of `main` (`src/main.py` lines 97–104): the argument of
`sys.exit(0 if success else 1)` where `success = run_pipeline(config)`. -/
def main_exit_code (extractRaises transformRaises loadRaises : Bool) : ℕ :=
  if pyTruthy (run_pipeline extractRaises transformRaises loadRaises) then 0 else 1

/-! ### Persistence stage (`src/utils/load.py`) -/

/-- Result of `DataLoader.load`: the returned boolean and the list of output
files written. -/
structure LoadOutcome where
  success : Bool
  filesWritten : List Str
deriving DecidableEq, Repr

/-- Embedding of `DataLoader.load` (`utils/load.py` lines 40–49) together with
`save_to_csv` / `save_to_json`.  `data` is the transformed record set;
`csvOk` / `jsonOk` say whether the corresponding file write succeeds (each
writer catches its own exception and returns `False`, logging it).  On an
empty record set the method returns `False` immediately, before either
writer (and hence any file-system access) is reached. -/
def load {α : Type} (data : List α) (csvOk jsonOk : Bool) (csvPath jsonPath : Str) :
    LoadOutcome :=
  if data.isEmpty then ⟨false, []⟩
  else
    ⟨csvOk && jsonOk,
     (if csvOk then [csvPath] else []) ++ (if jsonOk then [jsonPath] else [])⟩

/-! ### Coordinate extraction (`GoogleMapsExtractor._extract_coordinates`) -/

/-- Match of the regex `-?\d+\.\d+` anchored at the start of `s`, without the
optional sign: returns the matched token and the rest of the string.  `\d+` is
greedy; since the first run is followed by `\.` and the second is at the end of
each capture group (always followed in the enclosing patterns by a non-digit
literal), maximal munch is exact regex behaviour. -/
def matchUFloatAt (s : Str) : Option (Str × Str) :=
  let d1 := s.takeWhile Char.isDigit
  if d1.isEmpty then none
  else
    match s.dropWhile Char.isDigit with
    | '.' :: r2 =>
      let d2 := r2.takeWhile Char.isDigit
      if d2.isEmpty then none
      else some (d1 ++ '.' :: d2, r2.dropWhile Char.isDigit)
    | _ => none

/-- Match of `-?\d+\.\d+` anchored at the start of `s`. -/
def matchFloatAt (s : Str) : Option (Str × Str) :=
  match s with
  | [] => none
  | c :: r =>
    if c = '-' then (matchUFloatAt r).map (fun p => ('-' :: p.1, p.2))
    else matchUFloatAt (c :: r)

/-- Match, anchored at a position already past `lit1`, of the two-group tail
`(-?\d+\.\d+) lit2 (-?\d+\.\d+)` shared by the three coordinate regexes
(`@(...),(...)`, `!3d(...)!4d(...)`, `"latitude":(...),"longitude":(...)`).
Returns the two captured groups. -/
def matchPatAt (lit2 : Str) (s : Str) : Option (Str × Str) :=
  match matchFloatAt s with
  | none => none
  | some (f1, r1) =>
    if lit2.isPrefixOf r1 then
      match matchFloatAt (r1.drop lit2.length) with
      | some (f2, _) => some (f1, f2)
      | none => none
    else none

/-- `re.search` for a pattern `lit1 (-?\d+\.\d+) lit2 (-?\d+\.\d+)`:
try the pattern at every position from the left, first success wins. -/
def searchPat (lit1 lit2 : Str) : Str → Option (Str × Str)
  | [] => none
  | c :: rest =>
    if lit1.isPrefixOf (c :: rest) then
      match matchPatAt lit2 ((c :: rest).drop lit1.length) with
      | some r => some r
      | none => searchPat lit1 lit2 rest
    else searchPat lit1 lit2 rest

/-- The page state visible to `_extract_coordinates` (`utils/extract.py` lines
291–399): the current URL, the values read from candidate share-link inputs (in
selector order), the `innerHTML` of the page's script tags, the `content`
attributes of the `og:latitude` meta tags (in document order), and the
`content` of the `og:longitude` meta element if that lookup succeeds.
An empty string models both `""` and an absent attribute (both falsy). -/
structure CoordPage where
  currentUrl : Str
  shareUrls : List Str
  scripts : List Str
  metaLats : List Str
  metaLng : Option Str
deriving DecidableEq, Repr

/-- Method 2: for each share-link value, try `!3d(-?\d+\.\d+)!4d(-?\d+\.\d+)`
then `@(-?\d+\.\d+),(-?\d+\.\d+)`; on a match return `f"{lat},{lng}"`. -/
def try_share : List Str → Option Str
  | [] => none
  | u :: rest =>
    match searchPat "!3d".data "!4d".data u with
    | some (la, lg) => some (la ++ ',' :: lg)
    | none =>
      match searchPat "@".data ",".data u with
      | some (la, lg) => some (la ++ ',' :: lg)
      | none => try_share rest

/-- Method 3: scan script contents for
`"latitude":(-?\d+\.\d+),"longitude":(-?\d+\.\d+)`; first match wins. -/
def try_scripts : List Str → Option Str
  | [] => none
  | sc :: rest =>
    match searchPat "\"latitude\":".data ",\"longitude\":".data sc with
    | some (la, lg) => some (la ++ ',' :: lg)
    | none => try_scripts rest

/-- Method 4: walk the `og:latitude` meta tags; for the first one, pair its
`content` with the `content` of the (single) `og:longitude` element; the guard
is Python truthiness (`if lat and lng`), i.e. both non-empty — the float format
is **not** validated here.  If the `og:longitude` lookup raises, every
iteration's inner `try` swallows it and the loop finds nothing. -/
def try_meta (lats : List Str) (lng : Option Str) : Option Str :=
  match lng with
  | none => none
  | some lg =>
    match lats.find? (fun la => !la.isEmpty && !lg.isEmpty) with
    | some la => some (la ++ ',' :: lg)
    | none => none

/-- Embedding of `GoogleMapsExtractor._extract_coordinates` (`utils/extract.py`
lines 291–399): URL regex, then share-link regexes, then script-tag regex, then
meta tags, else the sentinel. -/
def extract_coordinates (pg : CoordPage) : Str :=
  match searchPat "@".data ",".data pg.currentUrl with
  | some (la, lg) => la ++ ',' :: lg
  | none =>
    match try_share pg.shareUrls with
    | some s => s
    | none =>
      match try_scripts pg.scripts with
      | some s => s
      | none =>
        match try_meta pg.metaLats pg.metaLng with
        | some s => s
        | none => no_coordinates

/-- The spec's well-formedness predicate for a coordinates string, from its
words: a string of the form `"<float>,<float>"`, two decimal numbers separated
by a comma, each matching `-?\d+\.\d+` in full. -/
def wellFormedCoord (s : Str) : Bool :=
  match matchFloatAt s with
  | some (_, ',' :: r) =>
    (match matchFloatAt r with
     | some (_, rest) => rest.isEmpty
     | none => false)
  | _ => false

/-! ### Field extraction (Selector Resolver) -/

/-- Python `s.strip()`: remove leading and trailing whitespace. -/
def strip (s : Str) : Str :=
  ((s.dropWhile Char.isWhitespace).reverse.dropWhile Char.isWhitespace).reverse

/-- Outcome of trying one locator in a selector chain: the lookup either raises
(element not found within the timeout) or yields the element's text. -/
inductive SelAttempt where
  | fails
  | found (text : Str)
deriving DecidableEq, Repr

/-- Embedding of the selector-chain loops of `_extract_name` /
`_extract_address` / `_extract_rating` (`utils/extract.py` lines 188–247):
try each locator in order; a raised lookup is swallowed and the loop continues;
a located element's text is stripped and returned if non-empty, else the loop
continues; if the chain is exhausted, return the field's sentinel. -/
def resolveField (sentinel : Str) : List SelAttempt → Str
  | [] => sentinel
  | SelAttempt.fails :: rest => resolveField sentinel rest
  | SelAttempt.found t :: rest =>
    if (strip t).isEmpty then resolveField sentinel rest else strip t

/-- A raw record as built by `_extract_single_place`: the Python dict literal
with exactly the keys `name`, `address`, `rating`, `coordinates` — the
structure type makes "never a missing key" hold by construction. -/
structure RawRecord where
  name : Str
  address : Str
  rating : Str
  coordinates : Str
deriving DecidableEq, Repr

/-- The part of the page state feeding the four field extractors of
`_extract_single_place` for one opened detail view. -/
structure FieldEnv where
  nameAttempts : List SelAttempt
  addressAttempts : List SelAttempt
  ratingAttempts : List SelAttempt
  coordPage : CoordPage
deriving DecidableEq, Repr

/-- The `place_data` dict built at `utils/extract.py` lines 261–268. -/
def extractFields (env : FieldEnv) : RawRecord :=
  { name := resolveField no_name env.nameAttempts
    address := resolveField no_address env.addressAttempts
    rating := resolveField no_rating env.ratingAttempts
    coordinates := extract_coordinates env.coordPage }

/-! ### Card loop and session restarts (`extract_place_cards`,
`_extract_single_place`, `_restart_browser_and_search`) -/

/-- Environment data for one card of the results feed: whether opening the card
and extracting its detail fields succeeds when the card's DOM handle is live,
the record extracted in that case, and whether `_go_back_to_list` succeeds
after this card. -/
structure CardSpec where
  openOk : Bool
  fields : RawRecord
  backOk : Bool
deriving DecidableEq, Repr

/-- Mutable state of the scan across cards: the session epoch (bumped by each
`_restart_browser_and_search`, so a DOM handle from an older epoch is stale and
any operation on it raises) and the accumulated `self.results`. -/
structure ScanState where
  epoch : ℕ
  selfResults : List RawRecord
deriving DecidableEq, Repr

/-- Trace entry for one processed card: its index, the epoch its handle was
enumerated in, the session epoch when it was processed, whether a record was
collected, and whether a browser restart happened while handling it. -/
structure CardStep where
  idx : ℕ
  handleEpoch : ℕ
  epochAtProcessing : ℕ
  collected : Bool
  restarted : Bool
deriving DecidableEq, Repr

/-- Embedding of `_extract_single_place` (`utils/extract.py` lines 251–289) for
a card whose handle was enumerated at epoch `handleEpoch`.  If the handle is
live (`handleEpoch = st.epoch`) and extraction succeeds, the record is built
and `_go_back_to_list` is attempted; on go-back failure
`_restart_browser_and_search` runs (epoch bump) and the record is still
returned.  If the click on a stale handle or the field extraction raises, the
`except` clause tries to go back (restarting on failure) and returns `None`.
Restarts themselves are modelled as succeeding. -/
def extract_single_place (st : ScanState) (handleEpoch : ℕ) (c : CardSpec) :
    ScanState × Option RawRecord × Bool :=
  if handleEpoch = st.epoch ∧ c.openOk then
    if c.backOk then (st, some c.fields, false)
    else ({ st with epoch := st.epoch + 1 }, some c.fields, true)
  else
    if c.backOk then (st, none, false)
    else ({ st with epoch := st.epoch + 1 }, none, true)

/-- A card handle as enumerated by `driver.find_elements`: its position and the
session epoch it belongs to. -/
structure CardHandle where
  idx : ℕ
  handleEpoch : ℕ
  spec : CardSpec
deriving DecidableEq, Repr

/-- `enumerate(cards)` over the card handles found at epoch `e`. -/
def attach_handles (i e : ℕ) : List CardSpec → List CardHandle
  | [] => []
  | c :: rest => ⟨i, e, c⟩ :: attach_handles (i + 1) e rest

/-- Result of the card loop: final state, the `results` list returned, and the
processing trace. -/
structure ScanRun where
  finalState : ScanState
  results : List RawRecord
  steps : List CardStep
deriving DecidableEq, Repr

/-- The `for idx, card in enumerate(cards)` loop of `extract_place_cards`
(`utils/extract.py` lines 136–147): each card goes through
`_extract_single_place`; a non-`None` record is appended to both `results` and
`self.results`; per-card exceptions are logged and skipped. -/
def processCards : ScanState → List CardHandle → ScanRun
  | st, [] => ⟨st, [], []⟩
  | st, h :: rest =>
    let r := extract_single_place st h.handleEpoch h.spec
    let st2 : ScanState :=
      match r.2.1 with
      | some rec => ⟨r.1.epoch, r.1.selfResults ++ [rec]⟩
      | none => r.1
    let step : CardStep := ⟨h.idx, h.handleEpoch, st.epoch, r.2.1.isSome, r.2.2⟩
    let rest' := processCards st2 rest
    ⟨rest'.finalState,
     (match r.2.1 with | some rec => rec :: rest'.results | none => rest'.results),
     step :: rest'.steps⟩

/-- Embedding of `extract_place_cards` (`utils/extract.py` lines 110–147): the
card handles are enumerated **once**, at the current epoch, and the loop then
runs over that fixed enumeration. -/
def extract_place_cards (st : ScanState) (cards : List CardSpec) : ScanRun :=
  processCards st (attach_handles 0 st.epoch cards)

/-- The claim's re-fetch property on a trace: every card processed after a
restart uses a handle enumerated in the session current at its processing
(i.e. scanning resumed from a re-fetched card list). -/
def afterRestartFresh : List CardStep → Bool
  | [] => true
  | s :: rest =>
    (if s.restarted then rest.all (fun t => t.handleEpoch == t.epochAtProcessing)
     else true) &&
    afterRestartFresh rest

/-! ### The `extract` orchestration (`GoogleMapsExtractor.extract`) -/

/-- Environment for one call of `GoogleMapsExtractor.extract`
(`utils/extract.py` lines 425–442): whether the pre-card phases
(`setup_driver` / `navigate_to_google_maps` / `search_for_places` /
`scroll_results`) complete without raising; the card environment; and an
optional unrecovered exception interrupting the card loop after `n` cards
(e.g. a restart that itself raises and is re-raised past the loop). -/
structure ExtractRun where
  preCardsOk : Bool
  cards : List CardSpec
  interruptAfter : Option ℕ
deriving DecidableEq, Repr

/-- Embedding of `GoogleMapsExtractor.extract`: run the phases inside `try`;
on an exception, return `self.results` if non-empty, else re-raise
(`Except.error`). -/
def gm_extract (run : ExtractRun) : Except Unit (List RawRecord) :=
  if run.preCardsOk = false then Except.error ()
  else
    match run.interruptAfter with
    | none => Except.ok (extract_place_cards ⟨0, []⟩ run.cards).results
    | some n =>
      let acc := (extract_place_cards ⟨0, []⟩ (run.cards.take n)).finalState.selfResults
      if acc.isEmpty then Except.error () else Except.ok acc

/-! ### String form of a parsed float (for the idempotence property)

The spec's idempotence property re-runs the numeric parse "on that float's
string form".  No source function does this, so the string form is modelled
from the spec's words: Python `str()` on a float whose value is a plain
decimal, which prints the minimal decimal digits (`str(4.5) = "4.5"`,
`str(4.0) = "4.0"`, `str(0.01) = "0.01"`); scientific notation for extreme
magnitudes is outside the pipeline's data and not modelled. -/

/-- Little-endian digit characters of `n`, with explicit fuel (structural
recursion, so that the kernel can evaluate it); `fuel ≥ n` is always enough
since the argument shrinks by a factor of ten each step. -/
def natDigitsRevAux : ℕ → ℕ → Str
  | 0, _ => []
  | f + 1, n => if n = 0 then [] else Nat.digitChar (n % 10) :: natDigitsRevAux f (n / 10)

/-- Little-endian digit characters of `n` (empty for `0`). -/
def natDigitsRev (n : ℕ) : Str := natDigitsRevAux n n

/-- Decimal digit string of `n` (big-endian, `"0"` for `0`). -/
def natDigits (n : ℕ) : Str :=
  if n = 0 then ['0'] else (natDigitsRev n).reverse

/-- Normalize the pair `(n, e)` (value `n / 10 ^ e`) by stripping trailing
zero digits, as float repr does: `(450, 2) ↦ (45, 1)`. -/
def reduceDF : ℕ → ℕ → ℕ × ℕ
  | n, 0 => (n, 0)
  | n, e + 1 => if n % 10 = 0 then reduceDF (n / 10) e else (n, e + 1)

/-- Decimal rendering of the value `n / 10 ^ k` with exactly `k` fractional
digits, with `".0"` appended for whole numbers as Python `str()` does. -/
def decDigits (n k : ℕ) : Str :=
  if k = 0 then natDigits n ++ '.' :: ['0']
  else
    natDigits (n / 10 ^ k) ++
      '.' :: (List.replicate (k - (natDigits (n % 10 ^ k)).length) '0' ++
        natDigits (n % 10 ^ k))

/-- Modelled from the spec: "that float's string form" — Python `str()` of an
embedded float (plain-decimal range; see the section comment). -/
def pyFloatStr (v : DecFloat) : Str :=
  let r := reduceDF v.num.natAbs v.exp
  if v.num < 0 then '-' :: decDigits r.1 r.2 else decDigits r.1 r.2

/-! ### Helper predicates and sample data -/

/-- A full match of `-?\d+\.\d+`: optional minus sign, then a non-empty digit
run, a dot, and a non-empty digit run. -/
def FloatTok (s : Str) : Prop :=
  ∃ sgn d1 d2 : Str, (sgn = [] ∨ sgn = ['-']) ∧ d1 ≠ [] ∧ d2 ≠ [] ∧
    (∀ c ∈ d1, c.isDigit = true) ∧ (∀ c ∈ d2, c.isDigit = true) ∧
    s = sgn ++ d1 ++ '.' :: d2

/-- The first character of `s`, if any, is not a digit. -/
def HeadNotDigit (s : Str) : Prop :=
  ∀ c r, s = c :: r → c.isDigit = false

/-- Sample extracted record (used in concrete runs). -/
def rec1 : RawRecord :=
  ⟨"Cafe One".data, "Jl. Pandanaran 1".data, "4.5".data, "-6.99,110.42".data⟩

/-- Second sample extracted record. -/
def rec2 : RawRecord :=
  ⟨"Cafe Two".data, "Jl. Pemuda 2".data, "4.2".data, "-6.98,110.41".data⟩

/-! ## Lemmas -/

theorem takeWhile_append_eq {α : Type} (p : α → Bool) :
    ∀ D R : List α, (∀ c ∈ D, p c = true) → (∀ c r, R = c :: r → p c = false) →
      (D ++ R).takeWhile p = D ∧ (D ++ R).dropWhile p = R := by
  intro D
  induction D with
  | nil =>
    intro R _ hR
    cases R with
    | nil => simp
    | cons c r => simp [List.takeWhile, List.dropWhile, hR c r rfl]
  | cons d D ih =>
    intro R hD hR
    have hd : p d = true := hD d (by simp)
    have := ih R (fun c hc => hD c (by simp [hc])) hR
    simp [List.takeWhile, List.dropWhile, hd, this.1, this.2]

theorem splitComma_no_comma : ∀ s : Str, ',' ∉ s → splitComma s = [s] := by
  intro s
  induction s with
  | nil => intro _; rfl
  | cons c r ih =>
    intro h
    have hc : ¬ c = ',' := fun hc => h (by simp [hc])
    have hr : ',' ∉ r := fun hr => h (by simp [hr])
    simp [splitComma, hc, ih hr]

theorem splitComma_append : ∀ a b : Str, ',' ∉ a →
    splitComma (a ++ ',' :: b) = a :: splitComma b := by
  intro a
  induction a with
  | nil => intro b _; simp [splitComma]
  | cons c a' ih =>
    intro b h
    have hc : ¬ c = ',' := fun hc => h (by simp [hc])
    have ha' : ',' ∉ a' := fun hb => h (by simp [hb])
    show splitComma (c :: (a' ++ ',' :: b)) = (c :: a') :: splitComma b
    rw [splitComma, if_neg hc, ih b ha']

theorem splitComma_pair (a b : Str) (ha : ',' ∉ a) (hb : ',' ∉ b) :
    splitComma (a ++ ',' :: b) = [a, b] := by
  rw [splitComma_append a b ha, splitComma_no_comma b hb]

theorem processCards_selfResults : ∀ (hs : List CardHandle) (st : ScanState),
    (processCards st hs).finalState.selfResults =
      st.selfResults ++ (processCards st hs).results := by
  intro hs
  induction hs with
  | nil => intro st; simp [processCards]
  | cons h rest ih =>
    intro st
    simp only [processCards]
    rcases hr : (extract_single_place st h.handleEpoch h.spec) with ⟨st1, pd, rs⟩
    have hst1 : st1.selfResults = st.selfResults := by
      simp only [extract_single_place] at hr
      split at hr <;> split at hr <;>
        simp only [Prod.mk.injEq] at hr <;> simp [← hr.1]
    cases pd with
    | none => simpa [hst1] using ih st1
    | some rec =>
      have := ih ⟨st1.epoch, st1.selfResults ++ [rec]⟩
      simpa [hst1] using this

/-! ## Claim theorems -/

/-- C1 (evidence for the code bug): the embedded `main` exits with status 1 for
**every** combination of phase outcomes — in particular a run in which extract,
transform and load all complete without raising exits 1, not 0, because
`run_pipeline` has no `return True` on its success path: it returns `None`,
which `0 if success else 1` treats as falsy. -/
theorem run_pipeline_exit_always_one :
    ∀ e t l : Bool, main_exit_code e t l = 1 := by decide

/-- C8: on an empty record set, `DataLoader.load` returns `False` and writes no
output file (and, being total, raises nothing), for every write-outcome
environment and any output paths. -/
theorem load_empty_noop :
    ∀ (csvOk jsonOk : Bool) (csvPath jsonPath : Str),
      load ([] : List RawRecord) csvOk jsonOk csvPath jsonPath =
        ⟨false, []⟩ := by
  intro csvOk jsonOk p1 p2
  rfl

/-- C5 counterexample: on the coordinate string `"1.5,abc"` — whose second
component is non-numeric — the transform keeps `latitude = 1.5` and drops only
`longitude`, contradicting the claim that **both** fields are absent whenever
any component is non-numeric. -/
theorem split_coordinates_counterexample :
    split_coordinates "1.5,abc".data = ⟨some ⟨15, 1⟩, none, true⟩ ∧
      (split_coordinates "1.5,abc".data).latitude ≠ none := by decide

/-- C5 as amended: splitting `a ++ "," ++ b` (comma-free components) assigns
`latitude` the parse of `a`; `longitude` is the parse of `b` but only when `a`
parsed (the two `df.at` assignments run in order, and the exception from
`float(lng)` strikes after `latitude` was already set); the failure is logged,
not raised; the sentinel yields both absent; and on the spec's examples:
`"-6.9667,110.4167"` gives latitude −6.9667 and longitude 110.4167, while
`"abc,110.4"` gives both absent. -/
theorem split_coordinates_amended :
    (∀ a b : Str, ',' ∉ a → ',' ∉ b →
      split_coordinates (a ++ ',' :: b) =
        ⟨pyFloat? a,
         if (pyFloat? a).isSome then pyFloat? b else none,
         !((pyFloat? a).isSome && (pyFloat? b).isSome)⟩) ∧
    split_coordinates no_coordinates = ⟨none, none, false⟩ ∧
    split_coordinates "-6.9667,110.4167".data =
      ⟨some ⟨-69667, 4⟩, some ⟨1104167, 4⟩, false⟩ ∧
    DecFloat.toRat ⟨-69667, 4⟩ = -(69667 / 10000) ∧
    DecFloat.toRat ⟨1104167, 4⟩ = 1104167 / 10000 ∧
    split_coordinates "abc,110.4".data = ⟨none, none, true⟩ := by
  refine ⟨?_, by decide, by decide, ?_, ?_, by decide⟩
  · intro a b ha hb
    have hmem : ',' ∈ a ++ ',' :: b := by simp
    have hne : a ++ ',' :: b ≠ no_coordinates := by
      intro h
      rw [h] at hmem
      revert hmem
      decide
    have hnil : a ++ ',' :: b ≠ [] := by
      intro h
      rw [h] at hmem
      exact absurd hmem (List.not_mem_nil ',')
    rw [split_coordinates, if_neg (by tauto), splitComma_pair a b ha hb]
    cases hA : pyFloat? a with
    | none => simp [hA]
    | some la => cases hB : pyFloat? b with
      | none => simp [hA, hB]
      | some lb => simp [hA, hB]
  · norm_num [DecFloat.toRat]
  · norm_num [DecFloat.toRat]

/-- C5 amended, witness: the general component of the amended claim applied at
the concrete input `"1.5" ++ "," ++ "abc"`. -/
theorem split_coordinates_amended_witness :
    split_coordinates ("1.5".data ++ ',' :: "abc".data) =
      ⟨pyFloat? "1.5".data,
       if (pyFloat? "1.5".data).isSome then pyFloat? "abc".data else none,
       !((pyFloat? "1.5".data).isSome && (pyFloat? "abc".data).isSome)⟩ :=
  split_coordinates_amended.1 "1.5".data "abc".data (by decide) (by decide)

/-- C10: a failing extract never returns an empty record set — if the pre-card
phases raise, or the card loop is interrupted before any record was collected,
`GoogleMapsExtractor.extract` re-raises instead of returning `[]`. -/
theorem extract_empty_reraise :
    ∀ run : ExtractRun,
      (run.preCardsOk = false → gm_extract run = Except.error ()) ∧
      (∀ n, run.interruptAfter = some n →
        (extract_place_cards ⟨0, []⟩ (run.cards.take n)).results = [] →
        gm_extract run = Except.error ()) := by
  intro run
  constructor
  · intro h
    simp [gm_extract, h]
  · intro n hn hres
    have hself : (extract_place_cards ⟨0, []⟩ (run.cards.take n)).finalState.selfResults = [] := by
      rw [extract_place_cards, processCards_selfResults]
      rw [extract_place_cards] at hres
      simp [hres]
    cases hpre : run.preCardsOk with
    | false => simp [gm_extract, hpre]
    | true => simp [gm_extract, hpre, hn, extract_place_cards] at hself ⊢; simp [hself]

/-- C10, witness: a run whose pre-card phase raises errors out, and a run
interrupted after zero cards (nothing collected) errors out. -/
theorem extract_empty_reraise_witness :
    gm_extract ⟨false, [], none⟩ = Except.error () ∧
      gm_extract ⟨true, [⟨true, rec1, true⟩], some 0⟩ = Except.error () :=
  ⟨(extract_empty_reraise ⟨false, [], none⟩).1 rfl,
   (extract_empty_reraise ⟨true, [⟨true, rec1, true⟩], some 0⟩).2 0 rfl (by decide)⟩

/-- C4: if the extraction phase is interrupted by an unrecovered exception
after the card loop collected the records of the first `n` cards — at least
one of them — then `extract` returns exactly those collected records (they are
the `self.results` accumulated side-by-side with the loop's `results`). -/
theorem extract_partial_results :
    ∀ (cards : List CardSpec) (n : ℕ),
      (extract_place_cards ⟨0, []⟩ (cards.take n)).results ≠ [] →
      gm_extract ⟨true, cards, some n⟩ =
        Except.ok (extract_place_cards ⟨0, []⟩ (cards.take n)).results := by
  intro cards n hne
  have hself : (extract_place_cards ⟨0, []⟩ (cards.take n)).finalState.selfResults =
      (extract_place_cards ⟨0, []⟩ (cards.take n)).results := by
    rw [extract_place_cards, processCards_selfResults]
    rfl
  simp only [gm_extract, Bool.true_eq_false, if_false, hself]
  rw [if_neg (by simpa using hne)]

/-- C4, witness: interrupting after the first of two cards returns exactly that
card's record. -/
theorem extract_partial_results_witness :
    gm_extract ⟨true, [⟨true, rec1, true⟩, ⟨true, rec2, true⟩], some 1⟩ =
      Except.ok (extract_place_cards ⟨0, []⟩
        ([⟨true, rec1, true⟩, ⟨true, rec2, true⟩].take 1)).results :=
  extract_partial_results [⟨true, rec1, true⟩, ⟨true, rec2, true⟩] 1 (by decide)

theorem attach_handles_append : ∀ (l1 l2 : List CardSpec) (i e : ℕ),
    attach_handles i e (l1 ++ l2) =
      attach_handles i e l1 ++ attach_handles (i + l1.length) e l2 := by
  intro l1
  induction l1 with
  | nil => intro l2 i e; simp [attach_handles]
  | cons c l1 ih =>
    intro l2 i e
    show (⟨i, e, c⟩ : CardHandle) :: attach_handles (i + 1) e (l1 ++ l2) =
      (⟨i, e, c⟩ : CardHandle) :: attach_handles (i + 1) e l1 ++
        attach_handles (i + (l1.length + 1)) e l2
    rw [ih l2 (i + 1) e]
    have harith : i + 1 + l1.length = i + (l1.length + 1) := by omega
    rw [harith]
    rfl

theorem attach_handles_epoch : ∀ (l : List CardSpec) (i e : ℕ) (h : CardHandle),
    h ∈ attach_handles i e l → h.handleEpoch = e := by
  intro l
  induction l with
  | nil => intro i e h hmem; simp [attach_handles] at hmem
  | cons c l ih =>
    intro i e h hmem
    simp only [attach_handles, List.mem_cons] at hmem
    rcases hmem with rfl | hmem
    · rfl
    · exact ih (i + 1) e h hmem

theorem processCards_append : ∀ (h1 h2 : List CardHandle) (st : ScanState),
    (processCards st (h1 ++ h2)).finalState =
        (processCards (processCards st h1).finalState h2).finalState ∧
      (processCards st (h1 ++ h2)).results =
        (processCards st h1).results ++
          (processCards (processCards st h1).finalState h2).results ∧
      (processCards st (h1 ++ h2)).steps =
        (processCards st h1).steps ++
          (processCards (processCards st h1).finalState h2).steps := by
  intro h1
  induction h1 with
  | nil => intro h2 st; simp [processCards]
  | cons h rest ih =>
    intro h2 st
    simp only [List.cons_append, processCards]
    rcases extract_single_place st h.handleEpoch h.spec with ⟨st1, pd, rs⟩
    cases pd with
    | none => simpa using ih h2 st1
    | some rec => simpa using ih h2 ⟨st1.epoch, st1.selfResults ++ [rec]⟩

theorem processCards_steps_epochs : ∀ (hs : List CardHandle) (st : ScanState) (s : CardStep),
    s ∈ (processCards st hs).steps → ∃ h ∈ hs, s.handleEpoch = h.handleEpoch := by
  intro hs
  induction hs with
  | nil => intro st s hmem; simp [processCards] at hmem
  | cons h rest ih =>
    intro st s hmem
    simp only [processCards] at hmem
    rcases hr : extract_single_place st h.handleEpoch h.spec with ⟨st1, pd, rs⟩
    rw [hr] at hmem
    cases pd with
    | none =>
      simp only [List.mem_cons] at hmem
      rcases hmem with rfl | hmem
      · exact ⟨h, by simp⟩
      · obtain ⟨h', hh', he⟩ := ih st1 s hmem
        exact ⟨h', by simp [hh'], he⟩
    | some rec =>
      simp only [List.mem_cons] at hmem
      rcases hmem with rfl | hmem
      · exact ⟨h, by simp⟩
      · obtain ⟨h', hh', he⟩ := ih ⟨st1.epoch, st1.selfResults ++ [rec]⟩ s hmem
        exact ⟨h', by simp [hh'], he⟩

theorem processCards_fresh : ∀ (l : List CardSpec) (i : ℕ) (st : ScanState),
    (∀ x ∈ l, x.openOk = true ∧ x.backOk = true) →
    (processCards st (attach_handles i st.epoch l)).results = l.map CardSpec.fields ∧
      (processCards st (attach_handles i st.epoch l)).finalState.epoch = st.epoch := by
  intro l
  induction l with
  | nil => intro i st _; simp [attach_handles, processCards]
  | cons c l ih =>
    intro i st hl
    obtain ⟨hopen, hback⟩ := hl c (by simp)
    have hstep : extract_single_place st st.epoch c = (st, some c.fields, false) := by
      rw [extract_single_place, if_pos ⟨rfl, hopen⟩, if_pos hback]
    simp only [attach_handles, processCards, hstep]
    have := ih (i + 1) ⟨st.epoch, st.selfResults ++ [c.fields]⟩
      (fun x hx => hl x (by simp [hx]))
    exact ⟨by simp [this.1], by simpa using this.2⟩

theorem processCards_stale : ∀ (l : List CardSpec) (i e0 : ℕ) (st : ScanState),
    e0 < st.epoch →
    (processCards st (attach_handles i e0 l)).results = [] := by
  intro l
  induction l with
  | nil => intro i e0 st _; simp [attach_handles, processCards]
  | cons c l ih =>
    intro i e0 st hlt
    have hne : ¬ (e0 = st.epoch ∧ c.openOk = true) := by
      rintro ⟨rfl, -⟩
      exact absurd hlt (lt_irrefl _)
    cases hback : c.backOk with
    | true =>
      have hstep : extract_single_place st e0 c = (st, none, false) := by
        rw [extract_single_place, if_neg hne, if_pos hback]
      simp only [attach_handles, processCards, hstep]
      exact ih (i + 1) e0 st hlt
    | false =>
      have hstep : extract_single_place st e0 c =
          (⟨st.epoch + 1, st.selfResults⟩, none, true) := by
        rw [extract_single_place, if_neg hne, if_neg (by simp [hback])]
      simp only [attach_handles, processCards, hstep]
      exact ih (i + 1) e0 ⟨st.epoch + 1, st.selfResults⟩ (Nat.lt_succ_of_lt hlt)

/-- C3 counterexample: two cards; card 0 extracts, `return_to_list` fails, so
the loop restarts the browser (trace step 0 records the restart) and keeps
card 0's record — but card 1 is then processed through its **pre-restart**
handle (enumeration epoch 0 against session epoch 1), so it yields nothing:
the loop does not resume from a re-fetched card list, refuting the claim's
re-fetch clause (`afterRestartFresh` is the claim's property on the trace). -/
theorem card_loop_stale_counterexample :
    (extract_place_cards ⟨0, []⟩ [⟨true, rec1, false⟩, ⟨true, rec2, true⟩]).results =
        [rec1] ∧
      (extract_place_cards ⟨0, []⟩ [⟨true, rec1, false⟩, ⟨true, rec2, true⟩]).steps =
        [⟨0, 0, 0, true, true⟩, ⟨1, 0, 1, false, false⟩] ∧
      afterRestartFresh
        (extract_place_cards ⟨0, []⟩ [⟨true, rec1, false⟩, ⟨true, rec2, true⟩]).steps =
        false := by decide

/-- C3 as amended: when `return_to_list` fails after a card `c` (all earlier
cards well-behaved), the loop does invoke the restart routine before the next
card (a trace step at `c`'s index records the restart) and `c`'s record is
preserved — but the loop continues over the **pre-restart** enumeration: every
processed handle belongs to the initial epoch 0, and since those handles are
stale after the restart, none of the cards after `c` contributes a record:
the run returns exactly the records of the cards before `c` plus `c`'s. -/
theorem card_loop_restart_amended :
    ∀ (pre : List CardSpec) (c : CardSpec) (post : List CardSpec),
      (∀ x ∈ pre, x.openOk = true ∧ x.backOk = true) →
      c.openOk = true → c.backOk = false →
      (extract_place_cards ⟨0, []⟩ (pre ++ c :: post)).results =
          pre.map CardSpec.fields ++ [c.fields] ∧
        (∃ s ∈ (extract_place_cards ⟨0, []⟩ (pre ++ c :: post)).steps,
          s.idx = pre.length ∧ s.restarted = true) ∧
        (∀ s ∈ (extract_place_cards ⟨0, []⟩ (pre ++ c :: post)).steps,
          s.handleEpoch = 0) := by
  intro pre c post hpre hopen hback
  rw [extract_place_cards]
  have hsplit := attach_handles_append pre (c :: post) 0 0
  rw [Nat.zero_add] at hsplit
  rw [hsplit]
  have happ := processCards_append (attach_handles 0 0 pre)
    (attach_handles pre.length 0 (c :: post)) ⟨0, []⟩
  have hfresh1 : (processCards ⟨0, []⟩ (attach_handles 0 0 pre)).results =
      pre.map CardSpec.fields := (processCards_fresh pre 0 ⟨0, []⟩ hpre).1
  have hst1e : (processCards ⟨0, []⟩ (attach_handles 0 0 pre)).finalState.epoch = 0 :=
    (processCards_fresh pre 0 ⟨0, []⟩ hpre).2
  have hstep : extract_single_place
      (processCards ⟨0, []⟩ (attach_handles 0 0 pre)).finalState 0 c =
      (⟨(processCards ⟨0, []⟩ (attach_handles 0 0 pre)).finalState.epoch + 1,
        (processCards ⟨0, []⟩ (attach_handles 0 0 pre)).finalState.selfResults⟩,
       some c.fields, true) := by
    rw [extract_single_place, if_pos ⟨hst1e.symm, hopen⟩, if_neg (by simp [hback])]
  have hstale := processCards_stale post (pre.length + 1) 0
    ⟨(processCards ⟨0, []⟩ (attach_handles 0 0 pre)).finalState.epoch + 1,
     (processCards ⟨0, []⟩ (attach_handles 0 0 pre)).finalState.selfResults ++ [c.fields]⟩
    (by simp)
  have hcpost_res : (processCards (processCards ⟨0, []⟩ (attach_handles 0 0 pre)).finalState
      (attach_handles pre.length 0 (c :: post))).results = [c.fields] := by
    simp only [attach_handles, processCards, hstep]
    simp [hstale]
  have hcpost_steps : (processCards (processCards ⟨0, []⟩ (attach_handles 0 0 pre)).finalState
      (attach_handles pre.length 0 (c :: post))).steps =
      (⟨pre.length, 0, (processCards ⟨0, []⟩ (attach_handles 0 0 pre)).finalState.epoch,
        true, true⟩ : CardStep) ::
        (processCards
          ⟨(processCards ⟨0, []⟩ (attach_handles 0 0 pre)).finalState.epoch + 1,
           (processCards ⟨0, []⟩ (attach_handles 0 0 pre)).finalState.selfResults ++ [c.fields]⟩
          (attach_handles (pre.length + 1) 0 post)).steps := by
    simp only [attach_handles, processCards, hstep]
    simp
  refine ⟨?_, ?_, ?_⟩
  · rw [happ.2.1, hfresh1, hcpost_res]
  · refine ⟨⟨pre.length, 0,
      (processCards ⟨0, []⟩ (attach_handles 0 0 pre)).finalState.epoch, true, true⟩,
      ?_, rfl, rfl⟩
    rw [happ.2.2, hcpost_steps]
    simp
  · intro s hs
    rw [happ.2.2] at hs
    rcases List.mem_append.1 hs with hs1 | hs2
    · obtain ⟨h, hh, he⟩ := processCards_steps_epochs _ _ _ hs1
      rw [he, attach_handles_epoch pre 0 0 h hh]
    · obtain ⟨h, hh, he⟩ := processCards_steps_epochs _ _ _ hs2
      rw [he, attach_handles_epoch (c :: post) pre.length 0 h hh]

/-- C3 amended, witness: the amended claim applied at the concrete two-card run
of the counterexample (card 0 loses its way back, card 1 comes after). -/
theorem card_loop_restart_amended_witness :
    (extract_place_cards ⟨0, []⟩ ([] ++ ⟨true, rec1, false⟩ :: [⟨true, rec2, true⟩])).results =
        [].map CardSpec.fields ++ [rec1] ∧
      (∃ s ∈ (extract_place_cards ⟨0, []⟩
          ([] ++ ⟨true, rec1, false⟩ :: [⟨true, rec2, true⟩])).steps,
        s.idx = List.length ([] : List CardSpec) ∧ s.restarted = true) ∧
      (∀ s ∈ (extract_place_cards ⟨0, []⟩
          ([] ++ ⟨true, rec1, false⟩ :: [⟨true, rec2, true⟩])).steps,
        s.handleEpoch = 0) :=
  card_loop_restart_amended [] ⟨true, rec1, false⟩ [⟨true, rec2, true⟩]
    (by intro x hx; cases hx) rfl rfl

theorem isDigit_ne_dot {c : Char} (h : c.isDigit = true) : c ≠ '.' := by
  intro hc; rw [hc] at h; exact absurd h (by decide)

theorem isDigit_ne_minus {c : Char} (h : c.isDigit = true) : c ≠ '-' := by
  intro hc; rw [hc] at h; exact absurd h (by decide)

theorem headNotDigit_cons {c : Char} {r : Str} (h : c.isDigit = false) :
    HeadNotDigit (c :: r) := by
  intro c' r' he
  cases he
  exact h

theorem headNotDigit_nil : HeadNotDigit [] := by
  intro c r h
  cases h

theorem matchUFloatAt_sound {s t r : Str} (h : matchUFloatAt s = some (t, r)) :
    (∃ d1 d2 : Str, d1 ≠ [] ∧ d2 ≠ [] ∧ (∀ c ∈ d1, c.isDigit = true) ∧
      (∀ c ∈ d2, c.isDigit = true) ∧ t = d1 ++ '.' :: d2) ∧ s = t ++ r := by
  simp only [matchUFloatAt] at h
  split at h
  · exact absurd h (by simp)
  · rename_i h1
    split at h
    · rename_i r2 hdw
      split at h
      · exact absurd h (by simp)
      · rename_i h2
        injection h with h
        injection h with ht hr
        subst ht; subst hr
        refine ⟨⟨s.takeWhile Char.isDigit, r2.takeWhile Char.isDigit,
          by simpa using h1, by simpa using h2,
          fun c hc => List.mem_takeWhile_imp hc,
          fun c hc => List.mem_takeWhile_imp hc, rfl⟩, ?_⟩
        calc s = s.takeWhile Char.isDigit ++ s.dropWhile Char.isDigit :=
              (List.takeWhile_append_dropWhile Char.isDigit s).symm
          _ = s.takeWhile Char.isDigit ++ '.' :: r2 := by rw [hdw]
          _ = s.takeWhile Char.isDigit ++ '.' ::
                (r2.takeWhile Char.isDigit ++ r2.dropWhile Char.isDigit) := by
              rw [List.takeWhile_append_dropWhile]
          _ = _ := by simp
    · exact absurd h (by simp)

theorem matchFloatAt_sound {s t r : Str} (h : matchFloatAt s = some (t, r)) :
    FloatTok t ∧ s = t ++ r := by
  cases s with
  | nil => exact absurd h (by simp [matchFloatAt])
  | cons c cs =>
    rw [matchFloatAt] at h
    by_cases hc : c = '-'
    · rw [if_pos hc] at h
      cases hu : matchUFloatAt cs with
      | none => rw [hu] at h; exact absurd h (by simp)
      | some p =>
        rw [hu] at h
        rcases p with ⟨t', r'⟩
        have h' : (some ('-' :: t', r') : Option (Str × Str)) = some (t, r) := h
        injection h' with h'
        injection h' with ht hr
        obtain ⟨⟨d1, d2, h1, h2, ha1, ha2, hts⟩, hs⟩ := matchUFloatAt_sound hu
        subst ht; subst hr; subst hc
        exact ⟨⟨['-'], d1, d2, Or.inr rfl, h1, h2, ha1, ha2, by simp [hts]⟩,
          by simp [hs]⟩
    · rw [if_neg hc] at h
      obtain ⟨⟨d1, d2, h1, h2, ha1, ha2, hts⟩, hs⟩ := matchUFloatAt_sound h
      exact ⟨⟨[], d1, d2, Or.inl rfl, h1, h2, ha1, ha2, by simp [hts]⟩, hs⟩

theorem matchUFloatAt_complete {d1 d2 R : Str} (h1 : d1 ≠ []) (h2 : d2 ≠ [])
    (ha1 : ∀ c ∈ d1, c.isDigit = true) (ha2 : ∀ c ∈ d2, c.isDigit = true)
    (hR : HeadNotDigit R) :
    matchUFloatAt (d1 ++ '.' :: (d2 ++ R)) = some (d1 ++ '.' :: d2, R) := by
  have hd1 := takeWhile_append_eq Char.isDigit d1 ('.' :: (d2 ++ R)) ha1
    (by intro c r he; injection he with hc _; rw [← hc]; decide)
  have hd2 := takeWhile_append_eq Char.isDigit d2 R ha2 (fun c r he => hR c r he)
  simp only [matchUFloatAt, hd1.1, hd1.2, hd2.1, hd2.2]
  rw [if_neg (by simpa using h1)]
  simp only [List.isEmpty_eq_true]
  rw [if_neg h2]

theorem matchFloatAt_complete {t R : Str} (ht : FloatTok t) (hR : HeadNotDigit R) :
    matchFloatAt (t ++ R) = some (t, R) := by
  obtain ⟨sgn, d1, d2, hsgn, h1, h2, ha1, ha2, hts⟩ := ht
  subst hts
  cases d1 with
  | nil => exact absurd rfl h1
  | cons c0 d1' =>
    have hc0 : c0.isDigit = true := ha1 c0 (by simp)
    have ha1' : ∀ c ∈ d1', c.isDigit = true := fun c hc => ha1 c (by simp [hc])
    rcases hsgn with rfl | rfl
    · have : ([] ++ (c0 :: d1') ++ '.' :: d2) ++ R =
          c0 :: (d1' ++ '.' :: (d2 ++ R)) := by simp
      rw [this, matchFloatAt, if_neg (isDigit_ne_minus hc0)]
      have := @matchUFloatAt_complete (c0 :: d1') d2 R
        (by simp) h2 ha1 ha2 hR
      simp only [List.cons_append] at this
      rw [this]
      simp
    · have : (['-'] ++ (c0 :: d1') ++ '.' :: d2) ++ R =
          '-' :: (c0 :: (d1' ++ '.' :: (d2 ++ R))) := by simp
      rw [this, matchFloatAt, if_pos rfl]
      have := @matchUFloatAt_complete (c0 :: d1') d2 R
        (by simp) h2 ha1 ha2 hR
      simp only [List.cons_append] at this
      rw [this]
      simp

theorem FloatTok.ne_nil {t : Str} (h : FloatTok t) : t ≠ [] := by
  obtain ⟨sgn, d1, d2, hsgn, h1, _, _, _, hts⟩ := h
  subst hts
  rcases hsgn with rfl | rfl <;> cases d1 <;> simp_all

theorem wellFormedCoord_append {a b : Str} (ha : FloatTok a) (hb : FloatTok b) :
    wellFormedCoord (a ++ ',' :: b) = true := by
  have h1 : matchFloatAt (a ++ ',' :: b) = some (a, ',' :: b) :=
    matchFloatAt_complete ha (headNotDigit_cons (by decide))
  have h2 : matchFloatAt (b ++ []) = some (b, []) :=
    matchFloatAt_complete hb headNotDigit_nil
  rw [List.append_nil] at h2
  simp only [wellFormedCoord, h1, h2]
  rfl

theorem matchPatAt_sound {lit2 s : Str} {f1 f2 : Str}
    (h : matchPatAt lit2 s = some (f1, f2)) : FloatTok f1 ∧ FloatTok f2 := by
  cases hm : matchFloatAt s with
  | none => simp [matchPatAt, hm] at h
  | some p =>
    rcases p with ⟨f1', r1⟩
    simp only [matchPatAt, hm] at h
    split at h
    · cases hm2 : matchFloatAt (r1.drop lit2.length) with
      | none => simp [hm2] at h
      | some p2 =>
        rcases p2 with ⟨f2', r2⟩
        simp only [hm2] at h
        injection h with h
        injection h with hf1 hf2
        subst hf1; subst hf2
        exact ⟨(matchFloatAt_sound hm).1, (matchFloatAt_sound hm2).1⟩
    · exact absurd h (by simp)

theorem searchPat_sound {lit1 lit2 : Str} :
    ∀ {s f1 f2 : Str}, searchPat lit1 lit2 s = some (f1, f2) →
      FloatTok f1 ∧ FloatTok f2 := by
  intro s
  induction s with
  | nil => intro f1 f2 h; exact absurd h (by simp [searchPat])
  | cons c rest ih =>
    intro f1 f2 h
    rw [searchPat] at h
    by_cases hp : lit1.isPrefixOf (c :: rest) = true
    · rw [if_pos hp] at h
      cases hm : matchPatAt lit2 ((c :: rest).drop lit1.length) with
      | none => simp only [hm] at h; exact ih h
      | some r =>
        rcases r with ⟨a, b⟩
        simp only [hm] at h
        injection h with h
        injection h with hf1 hf2
        subst hf1; subst hf2
        exact matchPatAt_sound hm
    · rw [if_neg hp] at h
      exact ih h

theorem try_share_sound : ∀ {us : List Str} {s : Str}, try_share us = some s →
    ∃ a b, FloatTok a ∧ FloatTok b ∧ s = a ++ ',' :: b := by
  intro us
  induction us with
  | nil => intro s h; exact absurd h (by simp [try_share])
  | cons u rest ih =>
    intro s h
    cases h1 : searchPat "!3d".data "!4d".data u with
    | some p =>
      rcases p with ⟨la, lg⟩
      simp only [try_share, h1] at h
      injection h with h
      exact ⟨la, lg, (searchPat_sound h1).1, (searchPat_sound h1).2, h.symm⟩
    | none =>
      cases h2 : searchPat "@".data ",".data u with
      | some p =>
        rcases p with ⟨la, lg⟩
        simp only [try_share, h1, h2] at h
        injection h with h
        exact ⟨la, lg, (searchPat_sound h2).1, (searchPat_sound h2).2, h.symm⟩
      | none =>
        simp only [try_share, h1, h2] at h
        exact ih h

theorem try_scripts_sound : ∀ {scs : List Str} {s : Str}, try_scripts scs = some s →
    ∃ a b, FloatTok a ∧ FloatTok b ∧ s = a ++ ',' :: b := by
  intro scs
  induction scs with
  | nil => intro s h; exact absurd h (by simp [try_scripts])
  | cons sc rest ih =>
    intro s h
    cases h1 : searchPat "\"latitude\":".data ",\"longitude\":".data sc with
    | some p =>
      rcases p with ⟨la, lg⟩
      simp only [try_scripts, h1] at h
      injection h with h
      exact ⟨la, lg, (searchPat_sound h1).1, (searchPat_sound h1).2, h.symm⟩
    | none =>
      simp only [try_scripts, h1] at h
      exact ih h

theorem try_meta_sound {lats : List Str} {lng : Option Str} {s : Str}
    (h : try_meta lats lng = some s) :
    ∃ la lg, lng = some lg ∧ la ∈ lats ∧ la ≠ [] ∧ lg ≠ [] ∧ s = la ++ ',' :: lg := by
  cases lng with
  | none => exact absurd h (by simp [try_meta])
  | some lg =>
    cases hfind : lats.find? (fun la => !la.isEmpty && !lg.isEmpty) with
    | none => simp [try_meta, hfind] at h
    | some la =>
      simp only [try_meta, hfind] at h
      injection h with h
      have hp := List.find?_some hfind
      have hla : la ≠ [] := by
        intro hn
        rw [hn] at hp
        simp at hp
      have hlg : lg ≠ [] := by
        intro hn
        rw [hn] at hp
        simp at hp
      exact ⟨la, lg, rfl, List.mem_of_find?_eq_some hfind, hla, hlg, h.symm⟩

/-- C2 counterexample: a page where the URL, share-link and script methods all
fail but the page metadata carries `og:latitude = "abc"`, `og:longitude =
"xyz"`: the extractor returns `"abc,xyz"`, which is neither the sentinel nor of
the form `"<float>,<float>"` — the page-metadata branch does not validate the
float format, refuting the claim's "including the page-metadata branch". -/
theorem coordinates_meta_counterexample :
    extract_coordinates ⟨"url".data, [], [], ["abc".data], some "xyz".data⟩ =
        "abc,xyz".data ∧
      wellFormedCoord "abc,xyz".data = false ∧
      "abc,xyz".data ≠ no_coordinates := by decide

/-- C2 as amended: every coordinates string produced by the extractor is the
sentinel `"No coordinates"`, or matches `"<float>,<float>"` (this covers the
URL, share-link and script branches of the fallback chain), or comes from the
page-metadata branch, which returns the two raw metadata `content` strings
joined by a comma, checked only for non-emptiness, not for float format. -/
theorem coordinates_wellformed_or_meta :
    ∀ pg : CoordPage,
      extract_coordinates pg = no_coordinates ∨
      wellFormedCoord (extract_coordinates pg) = true ∨
      (∃ la lg, pg.metaLng = some lg ∧ la ∈ pg.metaLats ∧ la ≠ [] ∧ lg ≠ [] ∧
        extract_coordinates pg = la ++ ',' :: lg) := by
  intro pg
  rw [extract_coordinates]
  cases h1 : searchPat "@".data ",".data pg.currentUrl with
  | some p =>
    obtain ⟨hf1, hf2⟩ := searchPat_sound h1
    exact Or.inr (Or.inl (wellFormedCoord_append hf1 hf2))
  | none =>
    cases h2 : try_share pg.shareUrls with
    | some s =>
      obtain ⟨a, b, ha, hb, rfl⟩ := try_share_sound h2
      exact Or.inr (Or.inl (wellFormedCoord_append ha hb))
    | none =>
      cases h3 : try_scripts pg.scripts with
      | some s =>
        obtain ⟨a, b, ha, hb, rfl⟩ := try_scripts_sound h3
        exact Or.inr (Or.inl (wellFormedCoord_append ha hb))
      | none =>
        cases h4 : try_meta pg.metaLats pg.metaLng with
        | some s =>
          obtain ⟨la, lg, hlng, hmem, hla, hlg, rfl⟩ := try_meta_sound h4
          exact Or.inr (Or.inr ⟨la, lg, hlng, hmem, hla, hlg, rfl⟩)
        | none => exact Or.inl rfl

theorem resolveField_cases : ∀ (attempts : List SelAttempt) (sentinel : Str),
    resolveField sentinel attempts = sentinel ∨
      ∃ t, SelAttempt.found t ∈ attempts ∧ resolveField sentinel attempts = strip t ∧
        (strip t).isEmpty = false := by
  intro attempts
  induction attempts with
  | nil => intro sentinel; exact Or.inl rfl
  | cons a rest ih =>
    intro sentinel
    cases a with
    | fails =>
      rcases ih sentinel with h | ⟨t, hmem, heq, hne⟩
      · exact Or.inl (by simpa [resolveField] using h)
      · exact Or.inr ⟨t, by simp [hmem], by simpa [resolveField] using heq, hne⟩
    | found t0 =>
      by_cases h0 : (strip t0).isEmpty
      · rcases ih sentinel with h | ⟨t, hmem, heq, hne⟩
        · exact Or.inl (by simpa [resolveField, h0] using h)
        · exact Or.inr ⟨t, by simp [hmem], by simpa [resolveField, h0] using heq, hne⟩
      · refine Or.inr ⟨t0, by simp, ?_, by simpa using h0⟩
        simp [resolveField, h0]

/-- The coordinates field is the sentinel or a non-empty joined string. -/
theorem extract_coordinates_sentinel_or_ne_nil (pg : CoordPage) :
    extract_coordinates pg = no_coordinates ∨ extract_coordinates pg ≠ [] := by
  rcases coordinates_wellformed_or_meta pg with h | h | ⟨la, lg, _, _, _, _, h⟩
  · exact Or.inl h
  · refine Or.inr ?_
    intro hnil
    rw [hnil] at h
    exact absurd h (by decide)
  · refine Or.inr ?_
    rw [h]
    simp

/-- C7: every `RawRecord` built by `_extract_single_place` carries all four raw
fields — by construction of the `place_data` dict literal, embedded as the
`RawRecord` structure, a key can never be missing — and each of `name`,
`address`, `rating` holds either its field's explicit sentinel or the (first
non-empty, stripped) text extracted by its selector chain, while `coordinates`
holds either its sentinel or a non-empty extracted string. -/
theorem raw_record_fields_sentinel :
    ∀ env : FieldEnv,
      ((extractFields env).name = no_name ∨
        ∃ t, SelAttempt.found t ∈ env.nameAttempts ∧
          (extractFields env).name = strip t ∧ (extractFields env).name ≠ []) ∧
      ((extractFields env).address = no_address ∨
        ∃ t, SelAttempt.found t ∈ env.addressAttempts ∧
          (extractFields env).address = strip t ∧ (extractFields env).address ≠ []) ∧
      ((extractFields env).rating = no_rating ∨
        ∃ t, SelAttempt.found t ∈ env.ratingAttempts ∧
          (extractFields env).rating = strip t ∧ (extractFields env).rating ≠ []) ∧
      ((extractFields env).coordinates = no_coordinates ∨
        (extractFields env).coordinates ≠ []) := by
  intro env
  refine ⟨?_, ?_, ?_, extract_coordinates_sentinel_or_ne_nil env.coordPage⟩
  · rcases resolveField_cases env.nameAttempts no_name with h | ⟨t, hmem, heq, hne⟩
    · exact Or.inl h
    · refine Or.inr ⟨t, hmem, heq, ?_⟩
      rw [show (extractFields env).name = resolveField no_name env.nameAttempts from rfl,
        heq]
      simpa using hne
  · rcases resolveField_cases env.addressAttempts no_address with h | ⟨t, hmem, heq, hne⟩
    · exact Or.inl h
    · refine Or.inr ⟨t, hmem, heq, ?_⟩
      rw [show (extractFields env).address = resolveField no_address env.addressAttempts
        from rfl, heq]
      simpa using hne
  · rcases resolveField_cases env.ratingAttempts no_rating with h | ⟨t, hmem, heq, hne⟩
    · exact Or.inl h
    · refine Or.inr ⟨t, hmem, heq, ?_⟩
      rw [show (extractFields env).rating = resolveField no_rating env.ratingAttempts
        from rfl, heq]
      simpa using hne

theorem isDigit_ne_plus {c : Char} (h : c.isDigit = true) : c ≠ '+' := by
  intro hc; rw [hc] at h; exact absurd h (by decide)

theorem matchNumAt_none_of_not_digit {c : Char} {rest : Str} (hc : c.isDigit = false) :
    matchNumAt (c :: rest) = none := by
  simp [matchNumAt, List.takeWhile_cons, hc]

theorem matchNumAt_ne_none_of_digit {c : Char} {rest : Str} (hc : c.isDigit = true) :
    matchNumAt (c :: rest) ≠ none := by
  simp only [matchNumAt, List.takeWhile_cons, hc, if_true]
  rw [if_neg (by simp)]
  split
  · split <;> simp
  · simp

theorem searchNum_eq_none_iff : ∀ s : Str,
    searchNum s = none ↔ ∀ c ∈ s, c.isDigit = false := by
  intro s
  induction s with
  | nil => simp [searchNum]
  | cons c rest ih =>
    cases hc : c.isDigit with
    | true =>
      constructor
      · intro h
        rw [searchNum] at h
        cases hm : matchNumAt (c :: rest) with
        | some tok => rw [hm] at h; exact absurd h (by simp)
        | none => exact absurd hm (matchNumAt_ne_none_of_digit hc)
      · intro h
        exact absurd (h c (by simp)) (by simp [hc])
    | false =>
      rw [searchNum, matchNumAt_none_of_not_digit hc]
      constructor
      · intro h c' hmem
        rcases List.mem_cons.1 hmem with rfl | hmem
        · exact hc
        · exact (ih.1 h) c' hmem
      · intro h
        exact ih.2 (fun c' hmem => h c' (by simp [hmem]))

theorem matchNumAt_shape {s m : Str} (h : matchNumAt s = some m) :
    ∃ D : Str, D ≠ [] ∧ (∀ c ∈ D, c.isDigit = true) ∧
      (m = D ∨ ∃ F : Str, F ≠ [] ∧ (∀ c ∈ F, c.isDigit = true) ∧
        m = D ++ '.' :: F) := by
  simp only [matchNumAt] at h
  split at h
  · exact absurd h (by simp)
  · rename_i h1
    split at h
    · rename_i r2 hdw
      split at h
      · injection h with h
        exact ⟨s.takeWhile Char.isDigit, by simpa using h1,
          fun c hc => List.mem_takeWhile_imp hc, Or.inl h.symm⟩
      · rename_i h2
        injection h with h
        exact ⟨s.takeWhile Char.isDigit, by simpa using h1,
          fun c hc => List.mem_takeWhile_imp hc,
          Or.inr ⟨r2.takeWhile Char.isDigit, by simpa using h2,
            fun c hc => List.mem_takeWhile_imp hc, h.symm⟩⟩
    · injection h with h
      exact ⟨s.takeWhile Char.isDigit, by simpa using h1,
        fun c hc => List.mem_takeWhile_imp hc, Or.inl h.symm⟩

theorem parseDecimal_digits {D : Str} (hne : D ≠ []) (hd : ∀ c ∈ D, c.isDigit = true) :
    parseDecimal D = some ⟨(natVal D : ℤ), 0⟩ := by
  have h1 : D.takeWhile Char.isDigit = D := List.takeWhile_eq_self_iff.mpr (by simpa using hd)
  have h2 : D.dropWhile Char.isDigit = [] := List.dropWhile_eq_nil_iff.mpr (by simpa using hd)
  simp only [parseDecimal, h1, h2]
  rw [if_neg (by simpa using hne)]

theorem parseDecimal_digits_frac {D F : Str} (hD : D ≠ []) (_hF : F ≠ [])
    (haD : ∀ c ∈ D, c.isDigit = true) (haF : ∀ c ∈ F, c.isDigit = true) :
    parseDecimal (D ++ '.' :: F) =
      some ⟨((natVal D * 10 ^ F.length + natVal F : ℕ) : ℤ), F.length⟩ := by
  have h1 := takeWhile_append_eq Char.isDigit D ('.' :: F) haD
    (by intro c r he; injection he with hc _; rw [← hc]; decide)
  have h2 : F.takeWhile Char.isDigit = F := List.takeWhile_eq_self_iff.mpr (by simpa using haF)
  have h3 : F.dropWhile Char.isDigit = [] := List.dropWhile_eq_nil_iff.mpr (by simpa using haF)
  simp only [parseDecimal, h1.1, h1.2, h2, h3]
  simp only [List.isEmpty_nil, if_true]
  rw [if_neg (by simp [hD])]

theorem pyFloat?_eq_parseDecimal {c : Char} {r : Str} (hc : c.isDigit = true) :
    pyFloat? (c :: r) = parseDecimal (c :: r) := by
  rw [pyFloat?, if_neg (isDigit_ne_minus hc), if_neg (isDigit_ne_plus hc)]

theorem pyFloat?_digits {D : Str} (hne : D ≠ []) (hd : ∀ c ∈ D, c.isDigit = true) :
    pyFloat? D = some ⟨(natVal D : ℤ), 0⟩ := by
  cases D with
  | nil => exact absurd rfl hne
  | cons c r =>
    rw [pyFloat?_eq_parseDecimal (hd c (by simp))]
    exact parseDecimal_digits hne hd

theorem pyFloat?_digits_frac {D F : Str} (hD : D ≠ []) (hF : F ≠ [])
    (haD : ∀ c ∈ D, c.isDigit = true) (haF : ∀ c ∈ F, c.isDigit = true) :
    pyFloat? (D ++ '.' :: F) =
      some ⟨((natVal D * 10 ^ F.length + natVal F : ℕ) : ℤ), F.length⟩ := by
  cases D with
  | nil => exact absurd rfl hD
  | cons c r =>
    rw [List.cons_append, pyFloat?_eq_parseDecimal (haD c (by simp)), ← List.cons_append]
    exact parseDecimal_digits_frac hD hF haD haF

theorem searchNum_shape : ∀ {s m : Str}, searchNum s = some m →
    ∃ s', matchNumAt s' = some m := by
  intro s
  induction s with
  | nil => intro m hm; exact absurd hm (by simp [searchNum])
  | cons c rest ih =>
    intro m hm
    rw [searchNum] at hm
    cases hm2 : matchNumAt (c :: rest) with
    | some tok =>
      rw [hm2] at hm
      injection hm with hm
      exact ⟨c :: rest, by rw [hm2, hm]⟩
    | none =>
      rw [hm2] at hm
      exact ih hm

theorem pyFloat?_of_matchNumAt {s m : Str} (h : matchNumAt s = some m) :
    pyFloat? m ≠ none := by
  obtain ⟨D, hD, haD, hm⟩ := matchNumAt_shape h
  rcases hm with rfl | ⟨F, hF, haF, rfl⟩
  · rw [pyFloat?_digits hD haD]; simp
  · rw [pyFloat?_digits_frac hD hF haD haF]; simp

/-- C6: the transform's numeric-rating parse yields `none` exactly on the empty
string, the sentinel `"No rating"`, or a string containing no digit at all
(otherwise the first `\d+(\.\d+)?` token is parsed); on the spec's examples,
`"4.5 stars"` yields the value 4.5 and `"No rating"` yields absent. -/
theorem rating_numeric_first_decimal :
    ∀ s : Str,
      (extract_numeric_rating s = none ↔
        (s.isEmpty || s == no_rating || s.all (fun c => !c.isDigit)) = true) ∧
      extract_numeric_rating "4.5 stars".data = some ⟨45, 1⟩ ∧
      DecFloat.toRat ⟨45, 1⟩ = 9 / 2 ∧
      extract_numeric_rating no_rating = none := by
  intro s
  refine ⟨?_, by decide, by norm_num [DecFloat.toRat], by decide⟩
  constructor
  · intro h
    by_cases h1 : s = [] ∨ s = no_rating
    · rcases h1 with rfl | rfl <;> simp
    · rw [extract_numeric_rating, if_neg h1] at h
      cases hm : searchNum s with
      | some m =>
        rw [hm] at h
        obtain ⟨s', hs'⟩ := searchNum_shape hm
        exact absurd h (pyFloat?_of_matchNumAt hs')
      | none =>
        have hnd := (searchNum_eq_none_iff s).1 hm
        simp only [Bool.or_eq_true, List.all_eq_true]
        refine Or.inr ?_
        intro c hc
        simp [hnd c hc]
  · intro h
    simp only [Bool.or_eq_true, List.isEmpty_eq_true, beq_iff_eq, List.all_eq_true] at h
    rcases h with (rfl | rfl) | h
    · rfl
    · rfl
    · rw [extract_numeric_rating]
      by_cases h1 : s = [] ∨ s = no_rating
      · rw [if_pos h1]
      · rw [if_neg h1, (searchNum_eq_none_iff s).2 (fun c hc => by simpa using h c hc)]

theorem digitVal_digitChar : ∀ m : ℕ, m < 10 → digitVal (Nat.digitChar m) = m := by
  intro m hm
  interval_cases m <;> decide

theorem isDigit_digitChar : ∀ m : ℕ, m < 10 → (Nat.digitChar m).isDigit = true := by
  intro m hm
  interval_cases m <;> decide

theorem natDigitsRevAux_fuel : ∀ f : ℕ, ∀ n ≤ f, natDigitsRevAux f n = natDigitsRevAux n n := by
  intro f
  induction f using Nat.strong_induction_on with
  | _ f ih =>
    intro n hn
    cases f with
    | zero =>
      have : n = 0 := by omega
      subst this
      rfl
    | succ f' =>
      by_cases hz : n = 0
      · subst hz
        rfl
      · obtain ⟨m, rfl⟩ : ∃ m, n = m + 1 := ⟨n - 1, by omega⟩
        have h10 : (m + 1) / 10 < m + 1 := Nat.div_lt_self (by omega) (by norm_num)
        show (if m + 1 = 0 then [] else
            Nat.digitChar ((m + 1) % 10) :: natDigitsRevAux f' ((m + 1) / 10)) =
          (if m + 1 = 0 then [] else
            Nat.digitChar ((m + 1) % 10) :: natDigitsRevAux m ((m + 1) / 10))
        rw [if_neg hz, if_neg hz]
        congr 1
        rw [ih f' (by omega) ((m + 1) / 10) (by omega),
          ih m (by omega) ((m + 1) / 10) (by omega)]

theorem natDigitsRev_eq (n : ℕ) : natDigitsRev n =
    if n = 0 then [] else Nat.digitChar (n % 10) :: natDigitsRev (n / 10) := by
  cases n with
  | zero => rfl
  | succ m =>
    have h10 : (m + 1) / 10 < m + 1 := Nat.div_lt_self (by omega) (by norm_num)
    rw [if_neg (by omega)]
    show (if m + 1 = 0 then [] else
        Nat.digitChar ((m + 1) % 10) :: natDigitsRevAux m ((m + 1) / 10)) = _
    rw [if_neg (by omega)]
    congr 1
    exact natDigitsRevAux_fuel m ((m + 1) / 10) (by omega)

theorem natVal_append_digit (l : Str) (c : Char) :
    natVal (l ++ [c]) = 10 * natVal l + digitVal c := by
  simp [natVal, List.foldl_append]

theorem natVal_reverse_natDigitsRev : ∀ n : ℕ, natVal (natDigitsRev n).reverse = n := by
  intro n
  induction n using Nat.strong_induction_on with
  | _ n ih =>
    rw [natDigitsRev_eq]
    by_cases hz : n = 0
    · subst hz; rfl
    · rw [if_neg hz]
      have h10 : n / 10 < n := Nat.div_lt_self (by omega) (by norm_num)
      rw [List.reverse_cons, natVal_append_digit, ih (n / 10) h10,
        digitVal_digitChar (n % 10) (Nat.mod_lt n (by norm_num))]
      omega

theorem natVal_natDigits (n : ℕ) : natVal (natDigits n) = n := by
  rw [natDigits]
  by_cases hz : n = 0
  · subst hz; rfl
  · rw [if_neg hz]
    exact natVal_reverse_natDigitsRev n

theorem natDigits_ne_nil (n : ℕ) : natDigits n ≠ [] := by
  rw [natDigits]
  by_cases hz : n = 0
  · subst hz; simp
  · rw [if_neg hz]
    rw [natDigitsRev_eq, if_neg hz]
    simp

theorem natDigitsRev_all_digit : ∀ n : ℕ, ∀ c ∈ natDigitsRev n, c.isDigit = true := by
  intro n
  induction n using Nat.strong_induction_on with
  | _ n ih =>
    intro c hc
    rw [natDigitsRev_eq] at hc
    by_cases hz : n = 0
    · rw [if_pos hz] at hc; cases hc
    · rw [if_neg hz] at hc
      rcases List.mem_cons.1 hc with rfl | hc
      · exact isDigit_digitChar (n % 10) (Nat.mod_lt n (by omega))
      · exact ih (n / 10) (Nat.div_lt_self (by omega) (by norm_num)) c hc

theorem natDigits_all_digit (n : ℕ) : ∀ c ∈ natDigits n, c.isDigit = true := by
  intro c hc
  rw [natDigits] at hc
  by_cases hz : n = 0
  · rw [if_pos hz] at hc
    simp only [List.mem_singleton] at hc
    subst hc; decide
  · rw [if_neg hz] at hc
    exact natDigitsRev_all_digit n c (List.mem_reverse.1 hc)

theorem natDigitsRev_length_le : ∀ n k : ℕ, n < 10 ^ k → (natDigitsRev n).length ≤ k := by
  intro n
  induction n using Nat.strong_induction_on with
  | _ n ih =>
    intro k hk
    rw [natDigitsRev_eq]
    by_cases hz : n = 0
    · rw [if_pos hz]; simp
    · rw [if_neg hz]
      cases k with
      | zero => simp at hk; omega
      | succ k' =>
        have hdiv : n / 10 < 10 ^ k' := by
          rw [Nat.div_lt_iff_lt_mul (by norm_num)]
          calc n < 10 ^ (k' + 1) := hk
            _ = 10 ^ k' * 10 := by ring
        have := ih (n / 10) (Nat.div_lt_self (by omega) (by norm_num)) k' hdiv
        simpa using this

theorem natDigits_length_le {n k : ℕ} (hk : 0 < k) (h : n < 10 ^ k) :
    (natDigits n).length ≤ k := by
  rw [natDigits]
  by_cases hz : n = 0
  · rw [if_pos hz]; simpa using hk
  · rw [if_neg hz]
    simpa using natDigitsRev_length_le n k h

theorem natVal_replicate_zeros : ∀ (j : ℕ) (l : Str),
    natVal (List.replicate j '0' ++ l) = natVal l := by
  intro j
  induction j with
  | zero => intro l; rfl
  | succ j ih =>
    intro l
    show natVal ('0' :: (List.replicate j '0' ++ l)) = natVal l
    have h0 : (10 * 0 + digitVal '0') = 0 := by decide
    simp only [natVal, List.foldl_cons] at *
    rw [h0]
    exact ih l

theorem reduceDF_val : ∀ (e n : ℕ),
    (((reduceDF n e).1 : ℚ)) / 10 ^ (reduceDF n e).2 = (n : ℚ) / 10 ^ e := by
  intro e
  induction e with
  | zero => intro n; rfl
  | succ e ih =>
    intro n
    by_cases h : n % 10 = 0
    · have hdvd : (10 : ℕ) ∣ n := Nat.dvd_of_mod_eq_zero h
      have hred : reduceDF n (e + 1) = reduceDF (n / 10) e := by rw [reduceDF, if_pos h]
      rw [hred, ih (n / 10)]
      have hcast : ((n / 10 : ℕ) : ℚ) = (n : ℚ) / 10 := by
        rw [Nat.cast_div hdvd (by norm_num)]
        norm_num
      rw [hcast, div_div]
      congr 1
      rw [pow_succ]
      ring
    · have hred : reduceDF n (e + 1) = (n, e + 1) := by rw [reduceDF, if_neg h]
      rw [hred]

theorem matchNumAt_full {D F : Str} (hD : D ≠ []) (hF : F ≠ [])
    (haD : ∀ c ∈ D, c.isDigit = true) (haF : ∀ c ∈ F, c.isDigit = true) :
    matchNumAt (D ++ '.' :: F) = some (D ++ '.' :: F) := by
  have h1 := takeWhile_append_eq Char.isDigit D ('.' :: F) haD
    (by intro c r he; injection he with hc _; rw [← hc]; decide)
  have h2 : F.takeWhile Char.isDigit = F :=
    List.takeWhile_eq_self_iff.mpr (by simpa using haF)
  simp only [matchNumAt, h1.1, h1.2, h2]
  rw [if_neg (by simpa using hD), if_neg (by simpa using hF)]

theorem searchNum_full {D F : Str} (hD : D ≠ []) (hF : F ≠ [])
    (haD : ∀ c ∈ D, c.isDigit = true) (haF : ∀ c ∈ F, c.isDigit = true) :
    searchNum (D ++ '.' :: F) = some (D ++ '.' :: F) := by
  cases D with
  | nil => exact absurd rfl hD
  | cons c D' =>
    have hm := @matchNumAt_full (c :: D') F hD hF haD haF
    rw [List.cons_append] at hm
    rw [List.cons_append, searchNum, hm]

theorem digits_head_ne {D r : Str} (hD : D ≠ []) (haD : ∀ c ∈ D, c.isDigit = true) :
    ¬ (D ++ r = [] ∨ D ++ r = no_rating) := by
  cases D with
  | nil => exact absurd rfl hD
  | cons c D' =>
    have hc : c.isDigit = true := haD c (by simp)
    rintro (h | h)
    · simp at h
    · rw [List.cons_append] at h
      have hN : no_rating = 'N' :: "o rating".data := rfl
      rw [hN] at h
      injection h with h1 _
      rw [h1] at hc
      exact absurd hc (by decide)

theorem pyFloatStr_roundtrip (N L : ℕ) :
    (extract_numeric_rating (pyFloatStr ⟨(N : ℤ), L⟩)).map DecFloat.toRat =
      some (DecFloat.toRat ⟨(N : ℤ), L⟩) := by
  have hstr : pyFloatStr ⟨(N : ℤ), L⟩ = decDigits (reduceDF N L).1 (reduceDF N L).2 := by
    simp [pyFloatStr, show ¬ ((N : ℤ) < 0) from by omega]
  rcases hmk : reduceDF N L with ⟨m, k⟩
  rw [hmk] at hstr
  have hval : (m : ℚ) / 10 ^ k = (N : ℚ) / 10 ^ L := by
    have := reduceDF_val L N
    rw [hmk] at this
    exact this
  have htoRat : DecFloat.toRat ⟨(N : ℤ), L⟩ = (N : ℚ) / 10 ^ L := by
    rw [DecFloat.toRat]
    push_cast
    ring
  rw [hstr, htoRat]
  by_cases hk : k = 0
  · subst hk
    rw [decDigits, if_pos rfl]
    have hD := natDigits_ne_nil m
    have haD := natDigits_all_digit m
    have hF : (['0'] : Str) ≠ [] := by simp
    have haF : ∀ c ∈ (['0'] : Str), c.isDigit = true := by
      intro c hc; simp only [List.mem_singleton] at hc; subst hc; decide
    rw [extract_numeric_rating, if_neg (digits_head_ne hD haD)]
    rw [searchNum_full hD hF haD haF]
    simp only [pyFloat?_digits_frac hD hF haD haF]
    have h0 : natVal ['0'] = 0 := by decide
    simp only [natVal_natDigits, h0, List.length_singleton, Option.map_some']
    congr 1
    simp only [DecFloat.toRat]
    push_cast
    rw [← hval]
    norm_num
  · rw [decDigits, if_neg hk]
    have hkpos : 0 < k := Nat.pos_of_ne_zero hk
    have hmod : m % 10 ^ k < 10 ^ k := Nat.mod_lt m (Nat.pos_pow_of_pos k (by norm_num))
    have hlen : (natDigits (m % 10 ^ k)).length ≤ k := natDigits_length_le hkpos hmod
    have hD := natDigits_ne_nil (m / 10 ^ k)
    have haD := natDigits_all_digit (m / 10 ^ k)
    have hF : List.replicate (k - (natDigits (m % 10 ^ k)).length) '0' ++
        natDigits (m % 10 ^ k) ≠ [] := by
      intro h
      exact natDigits_ne_nil (m % 10 ^ k) (List.append_eq_nil.mp h).2
    have haF : ∀ c ∈ List.replicate (k - (natDigits (m % 10 ^ k)).length) '0' ++
        natDigits (m % 10 ^ k), c.isDigit = true := by
      intro c hc
      rcases List.mem_append.1 hc with hc | hc
      · rw [List.eq_of_mem_replicate hc]; decide
      · exact natDigits_all_digit _ c hc
    have hlenF : (List.replicate (k - (natDigits (m % 10 ^ k)).length) '0' ++
        natDigits (m % 10 ^ k)).length = k := by
      simp only [List.length_append, List.length_replicate]
      omega
    have hvalF : natVal (List.replicate (k - (natDigits (m % 10 ^ k)).length) '0' ++
        natDigits (m % 10 ^ k)) = m % 10 ^ k := by
      rw [natVal_replicate_zeros, natVal_natDigits]
    rw [extract_numeric_rating, if_neg (digits_head_ne hD haD)]
    rw [searchNum_full hD hF haD haF]
    simp only [pyFloat?_digits_frac hD hF haD haF]
    simp only [natVal_natDigits, hlenF, hvalF, Option.map_some']
    congr 1
    simp only [DecFloat.toRat]
    have hdm : m / 10 ^ k * 10 ^ k + m % 10 ^ k = m := by
      rw [Nat.mul_comm]
      exact Nat.div_add_mod m (10 ^ k)
    rw [hdm]
    push_cast
    exact hval

/-- C9: numeric-rating parsing is idempotent on its own outputs — for every
float produced by parsing a rating string, re-running the numeric parse on
that float's string form yields a float with the same value. -/
theorem rating_parse_idempotent :
    ∀ (s : Str) (v : DecFloat), extract_numeric_rating s = some v →
      (extract_numeric_rating (pyFloatStr v)).map DecFloat.toRat =
        some (DecFloat.toRat v) := by
  intro s v h
  rw [extract_numeric_rating] at h
  by_cases h1 : s = [] ∨ s = no_rating
  · rw [if_pos h1] at h; exact absurd h (by simp)
  · rw [if_neg h1] at h
    cases hm : searchNum s with
    | none => simp [hm] at h
    | some m =>
      simp only [hm] at h
      obtain ⟨s', hs'⟩ := searchNum_shape hm
      obtain ⟨D, hD, haD, hshape⟩ := matchNumAt_shape hs'
      rcases hshape with rfl | ⟨F, hF, haF, rfl⟩
      · rw [pyFloat?_digits hD haD] at h
        injection h with h
        rw [← h]
        exact pyFloatStr_roundtrip (natVal m) 0
      · rw [pyFloat?_digits_frac hD hF haD haF] at h
        injection h with h
        rw [← h]
        exact pyFloatStr_roundtrip (natVal D * 10 ^ F.length + natVal F) F.length

/-- C9, witness: the idempotence theorem applied to the parse of
`"4.5 stars"`. -/
theorem rating_parse_idempotent_witness :
    extract_numeric_rating "4.5 stars".data = some ⟨45, 1⟩ ∧
      (extract_numeric_rating (pyFloatStr ⟨45, 1⟩)).map DecFloat.toRat =
        some (DecFloat.toRat ⟨45, 1⟩) :=
  ⟨by decide, rating_parse_idempotent "4.5 stars".data ⟨45, 1⟩ (by decide)⟩

/-- C6, witness: the characterization applied at the concrete rating
`"4.5 stars"`. -/
theorem rating_numeric_first_decimal_witness :
    extract_numeric_rating "4.5 stars".data = some ⟨45, 1⟩ :=
  (rating_numeric_first_decimal "4.5 stars".data).2.1

/-- C2, witness: the amended disjunction applied at a concrete page whose URL
carries an `@lat,lng` pattern. -/
theorem coordinates_wellformed_or_meta_witness :
    extract_coordinates ⟨"https:gm/@-6.99,110.42,15z/x".data, [], [], [], none⟩ =
        no_coordinates ∨
      wellFormedCoord
        (extract_coordinates ⟨"https:gm/@-6.99,110.42,15z/x".data, [], [], [], none⟩) =
        true ∨
      (∃ la lg, (none : Option Str) = some lg ∧ la ∈ ([] : List Str) ∧ la ≠ [] ∧
        lg ≠ [] ∧
        extract_coordinates ⟨"https:gm/@-6.99,110.42,15z/x".data, [], [], [], none⟩ =
          la ++ ',' :: lg) :=
  coordinates_wellformed_or_meta ⟨"https:gm/@-6.99,110.42,15z/x".data, [], [], [], none⟩

/-- C7, witness: the field invariant applied at a concrete detail view whose
name chain finds padded text, whose address chain raises throughout, whose
rating chain is empty, and whose page yields no coordinates. -/
theorem raw_record_fields_sentinel_witness :
    ((extractFields ⟨[SelAttempt.found "  Cafe One ".data], [SelAttempt.fails], [],
        ⟨"url".data, [], [], [], none⟩⟩).name = no_name ∨
      ∃ t, SelAttempt.found t ∈ [SelAttempt.found "  Cafe One ".data] ∧
        (extractFields ⟨[SelAttempt.found "  Cafe One ".data], [SelAttempt.fails], [],
          ⟨"url".data, [], [], [], none⟩⟩).name = strip t ∧
        (extractFields ⟨[SelAttempt.found "  Cafe One ".data], [SelAttempt.fails], [],
          ⟨"url".data, [], [], [], none⟩⟩).name ≠ []) ∧
    ((extractFields ⟨[SelAttempt.found "  Cafe One ".data], [SelAttempt.fails], [],
        ⟨"url".data, [], [], [], none⟩⟩).address = no_address ∨
      ∃ t, SelAttempt.found t ∈ [SelAttempt.fails] ∧
        (extractFields ⟨[SelAttempt.found "  Cafe One ".data], [SelAttempt.fails], [],
          ⟨"url".data, [], [], [], none⟩⟩).address = strip t ∧
        (extractFields ⟨[SelAttempt.found "  Cafe One ".data], [SelAttempt.fails], [],
          ⟨"url".data, [], [], [], none⟩⟩).address ≠ []) ∧
    ((extractFields ⟨[SelAttempt.found "  Cafe One ".data], [SelAttempt.fails], [],
        ⟨"url".data, [], [], [], none⟩⟩).rating = no_rating ∨
      ∃ t, SelAttempt.found t ∈ ([] : List SelAttempt) ∧
        (extractFields ⟨[SelAttempt.found "  Cafe One ".data], [SelAttempt.fails], [],
          ⟨"url".data, [], [], [], none⟩⟩).rating = strip t ∧
        (extractFields ⟨[SelAttempt.found "  Cafe One ".data], [SelAttempt.fails], [],
          ⟨"url".data, [], [], [], none⟩⟩).rating ≠ []) ∧
    ((extractFields ⟨[SelAttempt.found "  Cafe One ".data], [SelAttempt.fails], [],
        ⟨"url".data, [], [], [], none⟩⟩).coordinates = no_coordinates ∨
      (extractFields ⟨[SelAttempt.found "  Cafe One ".data], [SelAttempt.fails], [],
        ⟨"url".data, [], [], [], none⟩⟩).coordinates ≠ []) :=
  raw_record_fields_sentinel ⟨[SelAttempt.found "  Cafe One ".data], [SelAttempt.fails], [],
    ⟨"url".data, [], [], [], none⟩⟩

end EtlScrape
